import Mathlib

/-!
Shallow embedding of `pykern/pksetup.py` (setuptools wrapper).

The Python module is glue over the filesystem, environment variables and
subprocesses, so the embedding passes those effects explicitly:

* file contents are a map `Fs := String → Option String` (`none` = the file
  does not exist / cannot be read);
* environment variables are a map `String → Option String`;
* results of `git` subprocesses (`_git_exists`, `git ls-files`, commit
  timestamps converted by `datetime`) are parameters;
* Python `float` values of version strings `\d+.\d+` are modelled as exact
  rationals (the values compared are 14 significant decimal digits, well
  within the range where IEEE double comparison agrees with the exact order);
* `pkg_resources.parse_version` followed by `str` is modelled, for the purely
  numeric two-segment versions produced by `strftime("%Y%m%d.%H%M%S")`, as
  PEP 440 normalization: each dot-separated numeric release segment has its
  leading zeros stripped (`"20150101.010203"` becomes `"20150101.10203"`).

Side-effecting command flows (`PKDeploy.run`, `PyTest.run_tests`, `Tox.run`,
`_state`) additionally return a trace of the operations they performed, so
that statements such as "raises before any destructive action" and
"best-effort removed afterward" are about the trace.
-/

namespace Pksetup

/-- Decimal digit character test (Python `\d` for ASCII input). -/
def isDig (c : Char) : Bool := c.isDigit

/-- Python regex `\s` (ASCII): space, tab, newline, carriage return,
vertical tab, form feed. -/
def isPySpace (c : Char) : Bool :=
  c = ' ' || c = '\t' || c = '\n' || c = '\r' || c = Char.ofNat 11 || c = Char.ofNat 12

/-- Value of a list of decimal digit characters, most significant first
(Python `int(s)` on a digit string; also how `float` reads the integer part). -/
def natOfDigits (cs : List Char) : Nat :=
  cs.foldl (fun a c => 10 * a + (c.toNat - 48)) 0

/-- Helper for decimal rendering: peel digits from the low end. -/
def natToDecAux (n : Nat) (acc : List Char) : List Char :=
  if h : n = 0 then acc
  else natToDecAux (n / 10) (Nat.digitChar (n % 10) :: acc)
termination_by n
decreasing_by exact Nat.div_lt_self (Nat.pos_of_ne_zero h) (by norm_num)

/-- Decimal rendering of a natural number (Python `str(int)`):
no leading zeros, `"0"` for zero. -/
def natToDecL (n : Nat) : List Char :=
  if n = 0 then ['0'] else natToDecAux n []

/-- Number of decimal digits of `n` (`0` for `n = 0`). -/
def digLen (n : Nat) : Nat :=
  if h : n = 0 then 0 else digLen (n / 10) + 1
termination_by n
decreasing_by exact Nat.div_lt_self (Nat.pos_of_ne_zero h) (by norm_num)

/-- Split a character list at every dot (how PEP 440 reads the release
segments of a purely numeric version). -/
def splitDot : List Char → List (List Char)
  | [] => [[]]
  | c :: rest =>
    if c = '.' then [] :: splitDot rest
    else
      match splitDot rest with
      | [] => [[c]]
      | s :: ss => (c :: s) :: ss

/-- Rejoin segments with dots (inverse direction of `splitDot`). -/
def joinDot : List (List Char) → List Char
  | [] => []
  | [s] => s
  | s :: rest => s ++ '.' :: joinDot rest

/-- Modelled library call: `str(pkg_resources.parse_version(v))` for the
purely numeric dotted versions this module produces.  PEP 440 normalization
parses each dot-separated release segment as an integer and re-renders it,
stripping leading zeros. -/
def parse_version_str (s : String) : String :=
  ⟨joinDot ((splitDot s.toList).map (fun seg => natToDecL (natOfDigits seg)))⟩

/-- A Python `datetime.datetime` value as far as `strftime` needs it. -/
structure PyDateTime where
  year : Nat
  month : Nat
  day : Nat
  hour : Nat
  minute : Nat
  second : Nat

/-- Zero-pad the decimal rendering of `n` to width `w`
(`strftime` field padding). -/
def padZeroL (w n : Nat) : List Char :=
  List.replicate (w - (natToDecL n).length) '0' ++ natToDecL n

/-- Character list of `vt.strftime("%Y%m%d.%H%M%S")`. -/
def strftimeL (t : PyDateTime) : List Char :=
  padZeroL 4 t.year ++ padZeroL 2 t.month ++ padZeroL 2 t.day ++
    '.' :: (padZeroL 2 t.hour ++ padZeroL 2 t.minute ++ padZeroL 2 t.second)

/-- String form of `vt.strftime("%Y%m%d.%H%M%S")`. -/
def strftime_version (t : PyDateTime) : String := ⟨strftimeL t⟩

/-- Embedding of `_version_from_git`.  The git environment is passed in:
`gitExists` is `_git_exists()`, `dirty` says whether
`git ls-files --modified --deleted` printed anything, `now` is
`datetime.datetime.utcnow()` and `commit` is
`datetime.datetime.fromtimestamp` of the last commit time of the current
branch.  Returns `None` without a repo, else the strftime string passed
through `parse_version_str`. -/
def _version_from_git (gitExists dirty : Bool) (now commit : PyDateTime) :
    Option String :=
  if gitExists then
    some (parse_version_str (strftime_version (if dirty then now else commit)))
  else
    none

/-- Match a literal character-list prefix, returning the remainder. -/
def stripLit : List Char → List Char → Option (List Char)
  | [], cs => some cs
  | _ :: _, [] => none
  | p :: ps, c :: cs => if c = p then stripLit ps cs else none

/-- Attempt the regex `Version:\s*(\d{8}\.\d+)\s` at the head of `cs`,
returning the captured group.  The character classes on either side of each
greedy quantifier are disjoint, so no backtracking is possible and the
greedy scan is exact. -/
def tryMatchVersion (cs : List Char) : Option (List Char) :=
  match stripLit ("Version:".toList) cs with
  | none => none
  | some r1 =>
    let r2 := r1.dropWhile isPySpace
    let d8 := r2.take 8
    if d8.length = 8 ∧ d8.all Char.isDigit then
      match r2.drop 8 with
      | '.' :: r3 =>
        let frac := r3.takeWhile Char.isDigit
        if frac.isEmpty then none
        else
          match r3.drop frac.length with
          | c :: _ => if isPySpace c then some (d8 ++ '.' :: frac) else none
          | [] => none
      | _ => none
    else none

/-- Search as `re.search` does for `Version:\s*(\d{8}\.\d+)\s`: try every start position,
left to right. -/
def searchVersionL : List Char → Option (List Char)
  | [] => none
  | c :: rest =>
    match tryMatchVersion (c :: rest) with
    | some v => some v
    | none => searchVersionL rest

/-- Embedding of `_version_from_pkg_info`.  `contents` is the text of
`<name>.egg-info/PKG-INFO`, or `none` when reading it raises `IOError`
(the `except IOError: pass` path).  Total: it never raises. -/
def _version_from_pkg_info (contents : Option String) : Option String :=
  match contents with
  | none => none
  | some d => (searchVersionL d.toList).map (fun l => ⟨l⟩)

/-- Modelled library call: Python `float` on a version string of the shape
`digits.digits`, as an exact rational. -/
def floatOfVer (s : String) : ℚ :=
  let ip := s.toList.takeWhile (fun c => c ≠ '.')
  let fp := (s.toList.dropWhile (fun c => c ≠ '.')).drop 1
  (natOfDigits ip : ℚ) + (natOfDigits fp : ℚ) / (10 : ℚ) ^ fp.length

/-- Embedding of `_version`: combine the PKG-INFO version `v1` and the git
version `v2` exactly as the Python `if` ladder does, raising when both are
absent. -/
def _version (v1 v2 : Option String) : Except String String :=
  match v1 with
  | some a =>
    match v2 with
    | some b => Except.ok (if floatOfVer b < floatOfVer a then a else b)
    | none => Except.ok a
  | none =>
    match v2 with
    | some b => Except.ok b
    | none => Except.error "Must have a git repo or an source distribution"

/-- Does a version string have the shape eight digits, a dot, and one or
more digits (the shape the spec claims modulo the digit count of the time
part)? -/
def isYmdFloat (cs : List Char) : Bool :=
  ((cs.take 8).length == 8) && (cs.take 8).all Char.isDigit &&
  (match cs.drop 8 with
   | '.' :: rest => (!rest.isEmpty) && rest.all Char.isDigit
   | _ => false)

/-- Does a version string have the exact `yyyymmdd.hhmmss` shape the spec
claims: eight digits, a dot, and exactly six digits? -/
def isYmdHms (cs : List Char) : Bool :=
  ((cs.take 8).length == 8) && (cs.take 8).all Char.isDigit &&
  (match cs.drop 8 with
   | '.' :: rest => (rest.length == 6) && rest.all Char.isDigit
   | _ => false)

/-- Field bounds `datetime.datetime` guarantees for any value it produces
(year between 1000 and 9999 holds for every timestamp the code can see;
month, day, hour, minute, second always render as two digits). -/
def dtBounded (t : PyDateTime) : Prop :=
  1000 ≤ t.year ∧ t.year ≤ 9999 ∧ t.month < 100 ∧ t.day < 100 ∧
    t.hour < 100 ∧ t.minute < 100 ∧ t.second < 100

/-! ## `Tox._pyenv` and its regex -/

/-- Match a literal prefix case-insensitively (`re.IGNORECASE`),
returning the remainder. -/
def stripLitCI : List Char → List Char → Option (List Char)
  | [], cs => some cs
  | _ :: _, [] => none
  | p :: ps, c :: cs => if c.toLower = p.toLower then stripLitCI ps cs else none

/-- The literal part of the `Tox._pyenv` pattern
`Programming Language :: Python :: (\d+).(\d+)` (note the trailing space). -/
def pyPat : List Char := ("Programming Language :: Python :: ").toList

/-- Backtracking for `(\d+).(\d+)` after the literal prefix: the first
`\d+` tries the longest digit run first (`k` is the length currently
tried), the unescaped `.` consumes one character that is not a newline,
the second `\d+` is greedy. -/
def pyBacktrack : Nat → List Char → Option (List Char × List Char)
  | 0, _ => none
  | k + 1, cs =>
    match cs.drop (k + 1) with
    | [] => pyBacktrack k cs
    | sep :: rest =>
      if sep = '\n' then pyBacktrack k cs
      else
        let g2 := rest.takeWhile Char.isDigit
        if g2.isEmpty then pyBacktrack k cs
        else some (cs.take (k + 1), g2)

/-- Match `(\d+).(\d+)` at the head of `cs`, returning the two groups. -/
def pyDigitsMatch (cs : List Char) : Option (List Char × List Char) :=
  pyBacktrack (cs.takeWhile Char.isDigit).length cs

/-- Search as `re.search` does for the `Tox._pyenv` pattern: try each start position left
to right; at a position the literal prefix must match case-insensitively
and then the digit groups. -/
def searchPyL : List Char → Option (List Char × List Char)
  | [] => none
  | c :: rest =>
    match stripLitCI pyPat (c :: rest) with
    | some r =>
      match pyDigitsMatch r with
      | some g => some g
      | none => searchPyL rest
    | none => searchPyL rest

/-- String-level wrapper for the `Tox._pyenv` regex search. -/
def searchPy (s : String) : Option (List Char × List Char) :=
  searchPyL s.toList

/-- The literal-dot variant of the same pattern,
`Programming Language :: Python :: (\d+)\.(\d+)`: the separator between the
two digit groups must be an actual dot.  This is the reading of the claim
text `X.Y`; it is compared against the code's unescaped-dot pattern. -/
def strictPyBacktrack : Nat → List Char → Option (List Char × List Char)
  | 0, _ => none
  | k + 1, cs =>
    match cs.drop (k + 1) with
    | [] => strictPyBacktrack k cs
    | sep :: rest =>
      if sep = '.' then
        let g2 := rest.takeWhile Char.isDigit
        if g2.isEmpty then strictPyBacktrack k cs
        else some (cs.take (k + 1), g2)
      else strictPyBacktrack k cs

/-- Search as `re.search` does for the literal-dot pattern (spec reading of `X.Y`). -/
def strictSearchPyL : List Char → Option (List Char × List Char)
  | [] => none
  | c :: rest =>
    match stripLitCI pyPat (c :: rest) with
    | some r =>
      match strictPyBacktrack (r.takeWhile Char.isDigit).length r with
      | some g => some g
      | none => strictSearchPyL rest
    | none => strictSearchPyL rest

/-- String-level wrapper for the literal-dot search. -/
def strictSearchPy (s : String) : Option (List Char × List Char) :=
  strictSearchPyL s.toList

/-- Render one tox environment entry, `"py{}{}".format(g1, g2)`. -/
def fmtPy (g : List Char × List Char) : String :=
  ⟨('p' :: 'y' :: g.1) ++ g.2⟩

/-- Embedding of the loop body of `Tox._pyenv`: append an entry for each
classifier the regex matches, then default to `py27`. -/
def pyenvList (classifiers : List String) : List String :=
  let pyenv := classifiers.foldl
    (fun acc c =>
      match searchPy c with
      | some g => acc ++ [fmtPy g]
      | none => acc)
    []
  if pyenv.isEmpty then ["py27"] else pyenv

/-- Embedding of `Tox._pyenv`: the comma-joined environment list. -/
def tox_pyenv (classifiers : List String) : String :=
  String.intercalate "," (pyenvList classifiers)

/-! ## Filesystem model, `_readme`, `_find_files` -/

/-- A filesystem: file name to contents, `none` when the file does not
exist (also models an unreadable file, since `_read` only ever raises
`IOError` for those). -/
def Fs : Type := String → Option String

/-- Writing with mode `"w"` truncates: the new contents replace whatever
was there, independently of the previous state (`_write`). -/
def fsWrite (fs : Fs) (n c : String) : Fs :=
  fun m => if m = n then some c else fs m

/-- Removal via `os.remove` wrapped in `except OSError: pass` (`_remove`): total, the
missing-file case is a no-op instead of an exception. -/
def fsRemove (fs : Fs) (n : String) : Fs :=
  fun m => if m = n then none else fs m

/-- Embedding of `_readme`: first of `README.rst`, `README.md`,
`README.txt` that exists, else raise. -/
def _readme (fs : Fs) : Except String String :=
  if (fs "README.rst").isSome then Except.ok "README.rst"
  else if (fs "README.md").isSome then Except.ok "README.md"
  else if (fs "README.txt").isSome then Except.ok "README.txt"
  else Except.error "You need to create a README.rst"

/-- Embedding of `_find_files`.  The git environment is passed in:
`gitExists` is `_git_exists()`, `gitOthers` and `gitTracked` are the two
`git ls-files` outputs for the directory, `walked` the `os.walk`
enumeration.  Python's `sorted` is modelled by insertion sort (both are
stable ascending sorts, hence produce the same list). -/
def _find_files (gitExists : Bool) (gitOthers gitTracked walked : List String) :
    List String :=
  List.insertionSort (· ≤ ·)
    (if gitExists then gitOthers ++ gitTracked else walked)

/-! ## Effect traces of `_state`, `PyTest.run_tests`, `Tox.run` -/

/-- File-level operations a command performs, in order. -/
inductive FsOp where
  | write (name : String)
  | read (name : String)
  | removeAnyway (name : String)
  | tool (name : String)
deriving DecidableEq

/-- Name of the generated pytest configuration (`PYTEST_INI_FILE`). -/
def PYTEST_INI_FILE : String := "pytest.ini"

/-- Name of the generated tox configuration (`TOX_INI_FILE`). -/
def TOX_INI_FILE : String := "tox.ini"

/-- Resource subdirectory constant (`PACKAGE_DATA`). -/
def PACKAGE_DATA : String := "package_data"

/-- Scripts directory constant (`SCRIPTS_DIR`). -/
def SCRIPTS_DIR : String := "scripts"

/-- Embedding of `PyTest.run_tests`: trace of file operations paired with
whether an exception propagates out.  `isDev` is the
`PKSETUP_PKDEPLOY_IS_DEV` truthiness (dev mode exits before any file is
touched); `pytestRaises` says whether `pytest.main` raises.  The
`try/finally` removes `pytest.ini` either way. -/
def run_tests (isDev : Bool) (pytestRaises : Bool) : List FsOp × Bool :=
  if isDev then ([], false)
  else
    ([FsOp.write PYTEST_INI_FILE, FsOp.tool "pytest",
      FsOp.removeAnyway PYTEST_INI_FILE],
     pytestRaises)

/-- Embedding of `Tox.run`: `_sphinx_apidoc` first (reads the template
resource, writes `docs/conf.py`, runs `sphinx-apidoc`), then inside
`try/finally` writes `tox.ini`, runs `tox`, and removes `tox.ini` whether
or not `tox` raised. -/
def tox_run (sphinxRaises : Bool) (toxRaises : Bool) : List FsOp × Bool :=
  let sphinxOps := [FsOp.read "docs-conf.py.format", FsOp.write "docs/conf.py",
    FsOp.tool "sphinx-apidoc"]
  if sphinxRaises then (sphinxOps, true)
  else
    (sphinxOps ++ [FsOp.write TOX_INI_FILE, FsOp.tool "tox",
       FsOp.removeAnyway TOX_INI_FILE],
     toxRaises)

/-! ## `_state` -/

/-- Name of the PKG-INFO file `_version_from_pkg_info` reads. -/
def pkgInfoFile (name : String) : String := name ++ ".egg-info/PKG-INFO"

/-- Result of a successful `_state` call: the fields it adds to `base`,
the generated `MANIFEST.in` text, and the trace of file operations. -/
structure StateRes where
  version : String
  long_description : String
  manifest : String
  package_data : Option (String × List String)
  include_package_data : Bool
  scripts : Option (List String)
  trace : List FsOp

/-- Embedding of `_state`.  `fs` supplies file contents (PKG-INFO and the
README), `gitV` is the `_version_from_git` result for the ambient git
state, `name` is `base["name"]`, `extraDirs` is
`base["pksetup"]["extra_directories"]` (empty when absent), and
`findFiles` gives the `_find_files` result per directory. -/
def _state (fs : Fs) (gitV : Option String) (name : String)
    (extraDirs : List String) (findFiles : String → List String) :
    Except String StateRes :=
  match _version (_version_from_pkg_info (fs (pkgInfoFile name))) gitV with
  | Except.error e => Except.error e
  | Except.ok version =>
    match _readme fs with
    | Except.error e => Except.error e
    | Except.ok readme =>
      match fs readme with
      | none => Except.error ("IOError: " ++ readme)
      | some long_description =>
        let hdr := "# OVERWRITTEN by pykern.pksetup every \"python setup.py\"\ninclude LICENSE\ninclude requirements.txt\n"
        let inc := "include " ++ readme ++ "\n"
        let pd := findFiles (name ++ "/" ++ PACKAGE_DATA)
        let sc := findFiles SCRIPTS_DIR
        let dirs := (["docs", "tests"] ++ extraDirs) ++
          (if pd.isEmpty then [] else [name ++ "/" ++ PACKAGE_DATA]) ++
          (if sc.isEmpty then [] else [SCRIPTS_DIR])
        let recs := String.join
          (dirs.map (fun d => "recursive-include " ++ d ++ " *\n"))
        Except.ok
          { version := version
            long_description := long_description
            manifest := hdr ++ inc ++ recs
            package_data := if pd.isEmpty then none else some (name, pd)
            include_package_data := !pd.isEmpty
            scripts := if sc.isEmpty then none else some sc
            trace := [FsOp.read (pkgInfoFile name), FsOp.read readme,
              FsOp.write "MANIFEST.in"] }

/-- Trace of a `_state` outcome (empty when it raised). -/
def stTrace : Except String StateRes → List FsOp
  | Except.ok r => r.trace
  | Except.error _ => []

/-- Generated manifest of a `_state` outcome (empty when it raised). -/
def stManifest : Except String StateRes → String
  | Except.ok r => r.manifest
  | Except.error _ => ""

/-! ## `PKDeploy.run` -/

/-- Python truthiness of the result of `os.getenv(key, False)`:
falsy when unset or the empty string. -/
def truthy : Option String → Bool
  | none => false
  | some v => !(v == "")

/-- Destructive / external actions of `PKDeploy.run`, in order. -/
inductive DAct where
  | gitClean
  | tox
  | appendDist
  | upload
deriving DecidableEq

/-- Single quote character (kept out of string literals). -/
def sq : String := ⟨[Char.ofNat 39]⟩

/-- Python `str` of a list of strings, as `format` interpolates it
(assuming no escapes are needed): `['a', 'b']`. -/
def pyReprStrList (l : List String) : String :=
  "[" ++ String.intercalate ", " (l.map (fun s => sq ++ s ++ sq)) ++ "]"

/-- Embedding of `PKDeploy.run`: trace of destructive actions paired with
the outcome.  `dryRun` is `self.distribution.dry_run`, `env` the process
environment, `sdist` the `glob.glob(".tox/dist/*-*.*")` result after tox
succeeded.  The environment variables are asserted before `git clean`;
`tox` runs next; then exactly one sdist is required before upload. -/
def pkdeploy_run (dryRun : Bool) (env : String → Option String)
    (sdist : List String) : List DAct × Except String Unit :=
  if dryRun then ([], Except.error "--dry-run not supported")
  else
    let _is_test := truthy (env "PKSETUP_PYPI_IS_TEST")
    match env "PKSETUP_PYPI_PASSWORD" with
    | none => ([], Except.error "$PKSETUP_PYPI_PASSWORD: environment variable must be set")
    | some _password =>
      match env "PKSETUP_PYPI_USER" with
      | none => ([], Except.error "$PKSETUP_PYPI_USER: environment variable must be set")
      | some _user =>
        let pre := (if truthy (env "PKSETUP_PKDEPLOY_IS_DEV") then []
          else [DAct.gitClean]) ++ [DAct.tox]
        if sdist.length = 1 then
          (pre ++ [DAct.appendDist, DAct.upload], Except.ok ())
        else
          (pre, Except.error (pyReprStrList sdist ++ ": should be exactly one sdist"))

/-! ## Lemmas: decimal rendering and digit counting -/

theorem digitChar_isDigit {m : Nat} (h : m < 10) :
    (Nat.digitChar m).isDigit = true := by
  interval_cases m <;> decide

theorem digitChar_toNat {m : Nat} (h : m < 10) :
    (Nat.digitChar m).toNat = 48 + m := by
  interval_cases m <;> decide

theorem natToDecAux_append (n : Nat) :
    ∀ acc, natToDecAux n acc = natToDecAux n [] ++ acc := by
  induction n using Nat.strong_induction_on with
  | _ n ih =>
    intro acc
    by_cases h : n = 0
    · subst h; simp [natToDecAux]
    · have hlt : n / 10 < n := Nat.div_lt_self (Nat.pos_of_ne_zero h) (by norm_num)
      rw [show natToDecAux n acc =
            natToDecAux (n / 10) (Nat.digitChar (n % 10) :: acc) from by
          rw [natToDecAux, dif_neg h]]
      rw [show natToDecAux n [] =
            natToDecAux (n / 10) [Nat.digitChar (n % 10)] from by
          rw [natToDecAux, dif_neg h]]
      rw [ih _ hlt (Nat.digitChar (n % 10) :: acc),
        ih _ hlt [Nat.digitChar (n % 10)]]
      simp

theorem natToDecAux_all_digit (n : Nat) :
    ∀ acc, acc.all Char.isDigit = true →
      (natToDecAux n acc).all Char.isDigit = true := by
  induction n using Nat.strong_induction_on with
  | _ n ih =>
    intro acc hacc
    by_cases h : n = 0
    · subst h; simpa [natToDecAux] using hacc
    · have hlt : n / 10 < n := Nat.div_lt_self (Nat.pos_of_ne_zero h) (by norm_num)
      rw [natToDecAux, dif_neg h]
      exact ih _ hlt _ (by
        simp only [List.all_cons, Bool.and_eq_true]
        exact ⟨digitChar_isDigit (Nat.mod_lt _ (by norm_num)), hacc⟩)

theorem natToDecL_all_digit (n : Nat) :
    (natToDecL n).all Char.isDigit = true := by
  by_cases h : n = 0
  · subst h; decide
  · rw [natToDecL, if_neg h]
    exact natToDecAux_all_digit n [] rfl

theorem natToDecAux_length (n : Nat) :
    ∀ acc, (natToDecAux n acc).length = digLen n + acc.length := by
  induction n using Nat.strong_induction_on with
  | _ n ih =>
    intro acc
    by_cases h : n = 0
    · subst h; simp [natToDecAux, digLen]
    · have hlt : n / 10 < n := Nat.div_lt_self (Nat.pos_of_ne_zero h) (by norm_num)
      rw [natToDecAux, dif_neg h, digLen, dif_neg h, ih _ hlt]
      simp; omega

theorem digLen_le (w : Nat) : ∀ n, n < 10 ^ w → digLen n ≤ w := by
  induction w with
  | zero =>
    intro n hn
    interval_cases n
    simp [digLen]
  | succ w ihw =>
    intro n hn
    by_cases h : n = 0
    · subst h; simp [digLen]
    · rw [digLen, dif_neg h]
      have : n / 10 < 10 ^ w := by
        rw [Nat.div_lt_iff_lt_mul (by norm_num)]
        calc n < 10 ^ (w + 1) := hn
        _ = 10 ^ w * 10 := by ring
      exact Nat.succ_le_succ (ihw _ this)

theorem digLen_eq (k : Nat) :
    ∀ n, 10 ^ k ≤ n → n < 10 ^ (k + 1) → digLen n = k + 1 := by
  induction k with
  | zero =>
    intro n h1 h2
    simp only [pow_zero] at h1
    have h0 : n ≠ 0 := by omega
    rw [digLen, dif_neg h0]
    have : n / 10 = 0 := Nat.div_eq_of_lt (by simpa using h2)
    rw [this]
    simp [digLen]
  | succ k ihk =>
    intro n h1 h2
    have h0 : n ≠ 0 := by
      have : 0 < 10 ^ (k + 1) := Nat.pos_pow_of_pos _ (by norm_num)
      omega
    rw [digLen, dif_neg h0]
    have hlo : 10 ^ k ≤ n / 10 := by
      rw [Nat.le_div_iff_mul_le (by norm_num)]
      calc 10 ^ k * 10 = 10 ^ (k + 1) := by ring
      _ ≤ n := h1
    have hhi : n / 10 < 10 ^ (k + 1) := by
      rw [Nat.div_lt_iff_lt_mul (by norm_num)]
      calc n < 10 ^ (k + 2) := h2
      _ = 10 ^ (k + 1) * 10 := by ring
    rw [ihk _ hlo hhi]

theorem natToDecL_length_of_bounds {k n : Nat} (h1 : 10 ^ k ≤ n)
    (h2 : n < 10 ^ (k + 1)) : (natToDecL n).length = k + 1 := by
  have h0 : n ≠ 0 := by
    have : 0 < 10 ^ k := Nat.pos_pow_of_pos _ (by norm_num)
    omega
  rw [natToDecL, if_neg h0, natToDecAux_length]
  simp [digLen_eq k n h1 h2]

theorem natToDecL_ne_nil (n : Nat) : natToDecL n ≠ [] := by
  by_cases h : n = 0
  · subst h; simp [natToDecL]
  · have : (natToDecL n).length ≥ 1 := by
      rw [natToDecL, if_neg h, natToDecAux_length]
      rw [digLen, dif_neg h]
      omega
    intro hc
    rw [hc] at this
    simp at this

theorem natToDecL_length_le {w n : Nat} (hw : 0 < w) (hn : n < 10 ^ w) :
    (natToDecL n).length ≤ w := by
  by_cases h : n = 0
  · subst h; simpa [natToDecL] using hw
  · rw [natToDecL, if_neg h, natToDecAux_length]
    have := digLen_le w n hn
    simpa using this

/-! ## Lemmas: reading digit lists back as numbers -/

theorem foldl_digits_shift (l : List Char) :
    ∀ a : Nat, l.foldl (fun a c => 10 * a + (c.toNat - 48)) a =
      a * 10 ^ l.length + l.foldl (fun a c => 10 * a + (c.toNat - 48)) 0 := by
  induction l with
  | nil => intro a; simp
  | cons c l ih =>
    intro a
    simp only [List.foldl_cons, List.length_cons]
    rw [ih (10 * a + (c.toNat - 48)), ih (10 * 0 + (c.toNat - 48))]
    ring

theorem natOfDigits_cons (c : Char) (l : List Char) :
    natOfDigits (c :: l) = (c.toNat - 48) * 10 ^ l.length + natOfDigits l := by
  unfold natOfDigits
  simp only [List.foldl_cons]
  rw [foldl_digits_shift]
  ring

theorem natOfDigits_append (xs ys : List Char) :
    natOfDigits (xs ++ ys) =
      natOfDigits xs * 10 ^ ys.length + natOfDigits ys := by
  unfold natOfDigits
  rw [List.foldl_append]
  exact foldl_digits_shift ys _

theorem natOfDigits_replicate_zero (k : Nat) :
    natOfDigits (List.replicate k '0') = 0 := by
  induction k with
  | zero => simp [natOfDigits]
  | succ k ih =>
    rw [List.replicate_succ, natOfDigits_cons, ih]
    have h0 : '0'.toNat - 48 = 0 := by decide
    rw [h0]
    ring

theorem natOfDigits_natToDecAux (n : Nat) :
    ∀ acc, natOfDigits (natToDecAux n acc) =
      n * 10 ^ acc.length + natOfDigits acc := by
  induction n using Nat.strong_induction_on with
  | _ n ih =>
    intro acc
    by_cases h : n = 0
    · subst h; simp [natToDecAux]
    · have hlt : n / 10 < n := Nat.div_lt_self (Nat.pos_of_ne_zero h) (by norm_num)
      rw [natToDecAux, dif_neg h, ih _ hlt, natOfDigits_cons]
      rw [digitChar_toNat (Nat.mod_lt _ (by norm_num))]
      have h48 : 48 + n % 10 - 48 = n % 10 := by omega
      rw [h48]
      simp only [List.length_cons]
      have hpow : 10 ^ (acc.length + 1) = 10 ^ acc.length * 10 := by ring
      rw [hpow]
      have hdm : 10 * (n / 10) + n % 10 = n := Nat.div_add_mod n 10
      calc n / 10 * (10 ^ acc.length * 10) +
          ((n % 10) * 10 ^ acc.length + natOfDigits acc)
        = (10 * (n / 10) + n % 10) * 10 ^ acc.length + natOfDigits acc := by ring
      _ = n * 10 ^ acc.length + natOfDigits acc := by rw [hdm]

theorem natOfDigits_natToDecL (n : Nat) : natOfDigits (natToDecL n) = n := by
  by_cases h : n = 0
  · subst h; simp [natToDecL]; decide
  · rw [natToDecL, if_neg h, natOfDigits_natToDecAux]
    simp [natOfDigits]

/-! ## Lemmas: zero padding -/

theorem padZeroL_all_digit (w n : Nat) :
    (padZeroL w n).all Char.isDigit = true := by
  unfold padZeroL
  rw [List.all_append]
  simp only [Bool.and_eq_true]
  constructor
  · simp [List.all_eq_true]
  · exact natToDecL_all_digit n

theorem padZeroL_length {w n : Nat} (hw : 0 < w) (hn : n < 10 ^ w) :
    (padZeroL w n).length = w := by
  unfold padZeroL
  rw [List.length_append, List.length_replicate]
  have := natToDecL_length_le hw hn
  omega

theorem natOfDigits_padZeroL (w n : Nat) :
    natOfDigits (padZeroL w n) = n := by
  unfold padZeroL
  rw [natOfDigits_append, natOfDigits_replicate_zero, natOfDigits_natToDecL]
  ring

theorem noDot_of_all_digit {l : List Char} (h : l.all Char.isDigit = true) :
    '.' ∉ l := by
  intro hmem
  have := (List.all_eq_true.mp h) _ hmem
  simp at this

/-! ## Lemmas: splitting and joining on dots -/

theorem splitDot_noDot (B : List Char) (h : '.' ∉ B) : splitDot B = [B] := by
  induction B with
  | nil => rfl
  | cons c rest ih =>
    have hc : c ≠ '.' := fun hc => h (hc ▸ List.mem_cons_self c rest)
    have hrest : '.' ∉ rest := fun hr => h (List.mem_cons_of_mem c hr)
    rw [splitDot, if_neg hc, ih hrest]

theorem splitDot_append (A B : List Char) (hA : '.' ∉ A) :
    splitDot (A ++ '.' :: B) = A :: splitDot B := by
  induction A with
  | nil =>
    simp only [List.nil_append]
    rw [splitDot, if_pos rfl]
  | cons a A ih =>
    have ha : a ≠ '.' := fun hc => hA (hc ▸ List.mem_cons_self a A)
    have hA2 : '.' ∉ A := fun hr => hA (List.mem_cons_of_mem a hr)
    simp only [List.cons_append]
    rw [splitDot, if_neg ha, ih hA2]

theorem joinDot_pair (x z : List Char) : joinDot [x, z] = x ++ '.' :: z := rfl

/-! ## Lemmas: version string shapes -/

theorem isYmdFloat_of {x z : List Char} (hx : x.length = 8)
    (hdx : x.all Char.isDigit = true) (hz : z ≠ [])
    (hdz : z.all Char.isDigit = true) :
    isYmdFloat (x ++ '.' :: z) = true := by
  unfold isYmdFloat
  rw [List.take_left' hx, List.drop_left' hx]
  simp [hx, hdx, hdz, hz]

theorem parse_strftime_eval (t : PyDateTime) (hb : dtBounded t) :
    parse_version_str (strftime_version t) =
      ⟨natToDecL (t.year * 10 ^ 4 + (t.month * 10 ^ 2 + t.day)) ++
        '.' :: natToDecL (t.hour * 10 ^ 4 + (t.minute * 10 ^ 2 + t.second))⟩ := by
  obtain ⟨hy1, hy2, hmo, hd, hh, hmi, hs⟩ := hb
  have hmol : t.month < 10 ^ 2 := by norm_num; omega
  have hdl : t.day < 10 ^ 2 := by norm_num; omega
  have hmil : t.minute < 10 ^ 2 := by norm_num; omega
  have hsl : t.second < 10 ^ 2 := by norm_num; omega
  have hsplit : (strftime_version t).toList =
      (padZeroL 4 t.year ++ (padZeroL 2 t.month ++ padZeroL 2 t.day)) ++
        '.' :: (padZeroL 2 t.hour ++ (padZeroL 2 t.minute ++ padZeroL 2 t.second)) := by
    show strftimeL t = _
    simp [strftimeL, List.append_assoc]
  have hAdig : (padZeroL 4 t.year ++
      (padZeroL 2 t.month ++ padZeroL 2 t.day)).all Char.isDigit = true := by
    simp [List.all_append, padZeroL_all_digit]
  have hBdig : (padZeroL 2 t.hour ++
      (padZeroL 2 t.minute ++ padZeroL 2 t.second)).all Char.isDigit = true := by
    simp [List.all_append, padZeroL_all_digit]
  have hnA : natOfDigits (padZeroL 4 t.year ++
      (padZeroL 2 t.month ++ padZeroL 2 t.day)) =
      t.year * 10 ^ 4 + (t.month * 10 ^ 2 + t.day) := by
    rw [natOfDigits_append, natOfDigits_append, natOfDigits_padZeroL,
      natOfDigits_padZeroL, natOfDigits_padZeroL, List.length_append,
      padZeroL_length (by norm_num) hmol, padZeroL_length (by norm_num) hdl]
  have hnB : natOfDigits (padZeroL 2 t.hour ++
      (padZeroL 2 t.minute ++ padZeroL 2 t.second)) =
      t.hour * 10 ^ 4 + (t.minute * 10 ^ 2 + t.second) := by
    rw [natOfDigits_append, natOfDigits_append, natOfDigits_padZeroL,
      natOfDigits_padZeroL, natOfDigits_padZeroL, List.length_append,
      padZeroL_length (by norm_num) hmil, padZeroL_length (by norm_num) hsl]
  have hred : parse_version_str (strftime_version t) =
      ⟨joinDot ((splitDot ((strftime_version t).toList)).map
        (fun seg => natToDecL (natOfDigits seg)))⟩ := rfl
  rw [hred, hsplit, splitDot_append _ _ (noDot_of_all_digit hAdig),
    splitDot_noDot _ (noDot_of_all_digit hBdig)]
  simp only [List.map_cons, List.map_nil]
  rw [joinDot_pair, hnA, hnB]

theorem git_shape (t : PyDateTime) (hb : dtBounded t) :
    isYmdFloat (parse_version_str (strftime_version t)).toList = true := by
  obtain ⟨hy1, hy2, hmo, hd, hh, hmi, hs⟩ := hb
  have hlo : 10 ^ 7 ≤ t.year * 10 ^ 4 + (t.month * 10 ^ 2 + t.day) := by
    norm_num; omega
  have hhi : t.year * 10 ^ 4 + (t.month * 10 ^ 2 + t.day) < 10 ^ (7 + 1) := by
    norm_num; omega
  rw [parse_strftime_eval t ⟨hy1, hy2, hmo, hd, hh, hmi, hs⟩]
  show isYmdFloat (natToDecL (t.year * 10 ^ 4 + (t.month * 10 ^ 2 + t.day)) ++
    '.' :: natToDecL (t.hour * 10 ^ 4 + (t.minute * 10 ^ 2 + t.second))) = true
  exact isYmdFloat_of (natToDecL_length_of_bounds hlo hhi)
    (natToDecL_all_digit _) (natToDecL_ne_nil _) (natToDecL_all_digit _)

theorem tryMatchVersion_shape {cs v : List Char}
    (h : tryMatchVersion cs = some v) : isYmdFloat v = true := by
  unfold tryMatchVersion at h
  split at h
  · simp at h
  · rename_i r1 hstrip
    simp only at h
    split at h
    · rename_i hcond
      split at h
      · rename_i r3 hdrop
        split at h
        · simp at h
        · rename_i hfrac
          split at h
          · rename_i c1 r4 hrest
            split at h
            · injection h with h2
              subst h2
              refine isYmdFloat_of hcond.1 hcond.2 ?_ List.all_takeWhile
              intro hnil
              rw [hnil] at hfrac
              simp at hfrac
            · simp at h
          · simp at h
      · simp at h
    · simp at h

theorem searchVersionL_shape :
    ∀ cs v, searchVersionL cs = some v → isYmdFloat v = true := by
  intro cs
  induction cs with
  | nil => intro v h; simp [searchVersionL] at h
  | cons c rest ih =>
    intro v h
    rw [searchVersionL] at h
    cases htry : tryMatchVersion (c :: rest) with
    | some w =>
      rw [htry] at h
      injection h with h2
      exact h2 ▸ tryMatchVersion_shape htry
    | none =>
      rw [htry] at h
      exact ih v h

theorem pkgInfo_shape {c : Option String} {v : String}
    (h : _version_from_pkg_info c = some v) : isYmdFloat v.toList = true := by
  cases c with
  | none => simp [_version_from_pkg_info] at h
  | some d =>
    simp only [_version_from_pkg_info] at h
    cases hs : searchVersionL d.toList with
    | none => rw [hs] at h; simp at h
    | some l =>
      rw [hs] at h
      simp only [Option.map_some'] at h
      injection h with h2
      exact h2 ▸ searchVersionL_shape _ _ hs

theorem natToDecAux_eval (n : Nat) (acc : List Char) :
    natToDecAux n acc =
      if n = 0 then acc
      else natToDecAux (n / 10) (Nat.digitChar (n % 10) :: acc) := by
  rw [natToDecAux, dite_eq_ite]

/-! ## Claim theorems -/

/-- C1: `_version` returns the numerically greater of the PKG-INFO version
and the git version when both exist (comparison by Python `float`, ties to
the git side as `>` is strict), returns whichever exists when only one
does, and raises a descriptive `ValueError` when neither does. -/
theorem c1_version_choice :
    (∀ a b : String, floatOfVer b < floatOfVer a →
        _version (some a) (some b) = Except.ok a) ∧
    (∀ a b : String, floatOfVer a ≤ floatOfVer b →
        _version (some a) (some b) = Except.ok b) ∧
    (∀ a : String, _version (some a) none = Except.ok a) ∧
    (∀ b : String, _version none (some b) = Except.ok b) ∧
    _version none none =
      Except.error "Must have a git repo or an source distribution" := by
  refine ⟨?_, ?_, fun a => rfl, fun b => rfl, rfl⟩
  · intro a b hlt
    simp [_version, if_pos hlt]
  · intro a b hle
    simp [_version, if_neg (not_lt.mpr hle)]

/-- Witness for C1: concrete two-sided choices, larger PKG-INFO side and
larger git side. -/
theorem c1_version_choice_witness :
    _version (some "20150102.0") (some "20150101.0") =


      Except.ok "20150102.0" ∧
    _version (some "20150101.0") (some "20150102.0") =
      Except.ok "20150102.0" := by
  have e1 : floatOfVer "20150101.0" = 20150101 := by
    show ((20150101 : Nat) : ℚ) + ((0 : Nat) : ℚ) / (10 : ℚ) ^ (1 : Nat) = 20150101
    norm_num
  have e2 : floatOfVer "20150102.0" = 20150102 := by
    show ((20150102 : Nat) : ℚ) + ((0 : Nat) : ℚ) / (10 : ℚ) ^ (1 : Nat) = 20150102
    norm_num
  constructor
  · exact c1_version_choice.1 "20150102.0" "20150101.0"
      (by rw [e1, e2]; norm_num)
  · exact c1_version_choice.2.1 "20150101.0" "20150102.0"
      (by rw [e1, e2]; norm_num)

/-- C10: `_version_from_pkg_info` is total (no exception path in the
embedding); any version it returns matches eight digits, a dot, and one or
more digits; a missing or unreadable PKG-INFO yields `none`. -/
theorem c10_pkg_info_total (c : Option String) (v : String)
    (h : _version_from_pkg_info c = some v) :
    isYmdFloat v.toList = true ∧ _version_from_pkg_info none = none :=
  ⟨pkgInfo_shape h, rfl⟩

/-- Witness for C10 at a concrete PKG-INFO text. -/
theorem c10_pkg_info_total_witness :
    isYmdFloat (String.toList "20150102.230000") = true ∧
    _version_from_pkg_info none = none :=
  c10_pkg_info_total (some "Version: 20150102.230000\n") "20150102.230000"
    (by rfl)

/-- C2 counterexample: for the commit time 2015-01-01 01:02:03 (and a
clean tree in a git repo, no PKG-INFO), `_version` succeeds with
`"20150101.10203"`: the PEP 440 normalization applied by
`_version_from_git` strips the leading zero of the `%H%M%S` part, so the
result does not match the claimed eight-digits, dot, six-digits pattern. -/
theorem c2_format_counterexample :
    _version none (_version_from_git true false ⟨2015, 1, 1, 1, 2, 3⟩
        ⟨2015, 1, 1, 1, 2, 3⟩) = Except.ok "20150101.10203" ∧
    isYmdHms (String.toList "20150101.10203") = false := by
  constructor
  · have e1 : natToDecL 20150101 =
        ['2', '0', '1', '5', '0', '1', '0', '1'] := by
      simp [natToDecL, natToDecAux_eval, Nat.digitChar]
    have e2 : natToDecL 10203 = ['1', '0', '2', '0', '3'] := by
      simp [natToDecL, natToDecAux_eval, Nat.digitChar]
    have hb : dtBounded ⟨2015, 1, 1, 1, 2, 3⟩ := by
      refine ⟨?_, ?_, ?_, ?_, ?_, ?_, ?_⟩ <;> norm_num
    have hg : _version_from_git true false ⟨2015, 1, 1, 1, 2, 3⟩
        ⟨2015, 1, 1, 1, 2, 3⟩ = some "20150101.10203" := by
      show some (parse_version_str (strftime_version ⟨2015, 1, 1, 1, 2, 3⟩)) = _
      rw [parse_strftime_eval _ hb]
      norm_num
      rw [e1, e2]
      rfl
    rw [hg]
    rfl
  · decide

/-- C2 (amended): whenever `_version` succeeds on the values actually
produced by `_version_from_pkg_info` and `_version_from_git`, the result
matches eight decimal digits, a dot, and one or more decimal digits.  The
time-of-day part is not always six digits: PEP 440 normalization strips
its leading zeros, and a PKG-INFO version is only required to have one or
more digits after the dot. -/
theorem c2_version_shape_amended (pkgInfo : Option String)
    (gitExists dirty : Bool) (now commit : PyDateTime)
    (hn : dtBounded now) (hc : dtBounded commit) (r : String)
    (h : _version (_version_from_pkg_info pkgInfo)
      (_version_from_git gitExists dirty now commit) = Except.ok r) :
    isYmdFloat r.toList = true := by
  have hgit : ∀ s, _version_from_git gitExists dirty now commit = some s →
      isYmdFloat s.toList = true := by
    intro s hs
    unfold _version_from_git at hs
    by_cases hg : gitExists = true
    · rw [if_pos hg] at hs
      injection hs with hs2
      subst hs2
      by_cases hd : dirty = true
      · rw [if_pos hd]; exact git_shape now hn
      · rw [if_neg hd]; exact git_shape commit hc
    · rw [if_neg hg] at hs; simp at hs
  cases hp : _version_from_pkg_info pkgInfo with
  | some a =>
    cases hg : _version_from_git gitExists dirty now commit with
    | some b =>
      rw [hp, hg] at h
      simp only [_version] at h
      injection h with h2
      by_cases hlt : floatOfVer b < floatOfVer a
      · rw [if_pos hlt] at h2; subst h2; exact pkgInfo_shape hp
      · rw [if_neg hlt] at h2; subst h2; exact hgit _ hg
    | none =>
      rw [hp, hg] at h
      simp only [_version] at h
      injection h with h2
      subst h2
      exact pkgInfo_shape hp
  | none =>
    cases hg : _version_from_git gitExists dirty now commit with
    | some b =>
      rw [hp, hg] at h
      simp only [_version] at h
      injection h with h2
      subst h2
      exact hgit _ hg
    | none =>
      rw [hp, hg] at h
      simp [_version] at h

/-- Witness for the amended C2 at a concrete PKG-INFO input. -/
theorem c2_version_shape_amended_witness :
    isYmdFloat (String.toList "20150102.030405") = true := by
  have hb : dtBounded ⟨2015, 1, 2, 3, 4, 5⟩ := by
    refine ⟨?_, ?_, ?_, ?_, ?_, ?_, ?_⟩ <;> norm_num
  exact c2_version_shape_amended (some "Version: 20150102.030405 ")
    false false ⟨2015, 1, 2, 3, 4, 5⟩ ⟨2015, 1, 2, 3, 4, 5⟩ hb hb
    "20150102.030405" (by rfl)

/-- C3: if `PKSETUP_PYPI_USER` or `PKSETUP_PYPI_PASSWORD` is unset,
`PKDeploy.run` raises before any destructive action: its action trace is
empty — no `git clean`, no tox run, no upload. -/
theorem c3_env_guard (dryRun : Bool) (env : String → Option String)
    (sdist : List String)
    (h : env "PKSETUP_PYPI_USER" = none ∨ env "PKSETUP_PYPI_PASSWORD" = none) :
    (pkdeploy_run dryRun env sdist).1 = [] ∧
      ∃ e, (pkdeploy_run dryRun env sdist).2 = Except.error e := by
  cases dryRun with
  | true => exact ⟨rfl, _, rfl⟩
  | false =>
    cases hp : env "PKSETUP_PYPI_PASSWORD" with
    | none =>
      have hrun : pkdeploy_run false env sdist = ([],
          Except.error "$PKSETUP_PYPI_PASSWORD: environment variable must be set") := by
        simp [pkdeploy_run, hp]
      rw [hrun]
      exact ⟨rfl, _, rfl⟩
    | some p =>
      cases hu : env "PKSETUP_PYPI_USER" with
      | none =>
        have hrun : pkdeploy_run false env sdist = ([],
            Except.error "$PKSETUP_PYPI_USER: environment variable must be set") := by
          simp [pkdeploy_run, hp, hu]
        rw [hrun]
        exact ⟨rfl, _, rfl⟩
      | some u =>
        rcases h with h | h
        · rw [hu] at h; exact absurd h (by simp)
        · rw [hp] at h; exact absurd h (by simp)

/-- Environment with only the password set (user missing), for witnesses. -/
def envNoUser : String → Option String :=
  fun k => if k = "PKSETUP_PYPI_PASSWORD" then some "pw" else none

/-- Witness for C3 with the user variable unset. -/
theorem c3_env_guard_witness :
    (pkdeploy_run false envNoUser []).1 = [] ∧
      ∃ e, (pkdeploy_run false envNoUser []).2 = Except.error e :=
  c3_env_guard false envNoUser [] (Or.inl (by rfl))

/-- C5: `_readme` raises a descriptive error exactly when none of
`README.rst`, `README.md`, `README.txt` exists; when at least one exists
it succeeds and returns the name of an existing file. -/
theorem c5_readme_guard (fs : Fs) :
    ((fs "README.rst" = none ∧ fs "README.md" = none ∧ fs "README.txt" = none) →
        _readme fs = Except.error "You need to create a README.rst") ∧
    (((fs "README.rst").isSome = true ∨ (fs "README.md").isSome = true ∨
        (fs "README.txt").isSome = true) →
      ∃ w, _readme fs = Except.ok w ∧ (fs w).isSome = true) := by
  constructor
  · rintro ⟨h1, h2, h3⟩
    simp [_readme, h1, h2, h3]
  · intro h
    by_cases h1 : (fs "README.rst").isSome = true
    · exact ⟨"README.rst", by simp [_readme, h1], h1⟩
    · by_cases h2 : (fs "README.md").isSome = true
      · exact ⟨"README.md", by simp [_readme, h1, h2], h2⟩
      · by_cases h3 : (fs "README.txt").isSome = true
        · exact ⟨"README.txt", by simp [_readme, h1, h2, h3], h3⟩
        · rcases h with h | h | h
          · exact absurd h h1
          · exact absurd h h2
          · exact absurd h h3

/-- Filesystem with no README at all, for witnesses. -/
def fsNone : Fs := fun _ => none

/-- Filesystem with only `README.md` (and a PKG-INFO-free layout), for
witnesses. -/
def fsMd : Fs := fun n => if n = "README.md" then some "hello" else none

/-- Witness for C5: no README raises; `README.md` alone is found. -/
theorem c5_readme_guard_witness :
    _readme fsNone = Except.error "You need to create a README.rst" ∧
    ∃ w, _readme fsMd = Except.ok w ∧ (fsMd w).isSome = true :=
  ⟨(c5_readme_guard fsNone).1 ⟨rfl, rfl, rfl⟩,
   (c5_readme_guard fsMd).2 (Or.inr (Or.inl (by rfl)))⟩

/-- C6: with the credentials set, after the tox step, a `.tox/dist` glob
whose length is not exactly one makes `PKDeploy.run` raise the descriptive
sdist-count error without reaching the upload step (tox did run). -/
theorem c6_sdist_guard (env : String → Option String) (sdist : List String)
    (p u : String) (hp : env "PKSETUP_PYPI_PASSWORD" = some p)
    (hu : env "PKSETUP_PYPI_USER" = some u) (hs : sdist.length ≠ 1) :
    (pkdeploy_run false env sdist).2 =
      Except.error (pyReprStrList sdist ++ ": should be exactly one sdist") ∧
    DAct.upload ∉ (pkdeploy_run false env sdist).1 ∧
    DAct.tox ∈ (pkdeploy_run false env sdist).1 := by
  have hrun : pkdeploy_run false env sdist =
      ((if truthy (env "PKSETUP_PKDEPLOY_IS_DEV") then [] else [DAct.gitClean]) ++
        [DAct.tox],
       Except.error (pyReprStrList sdist ++ ": should be exactly one sdist")) := by
    simp [pkdeploy_run, hp, hu, hs]
  rw [hrun]
  refine ⟨rfl, ?_, ?_⟩
  · by_cases hd : truthy (env "PKSETUP_PKDEPLOY_IS_DEV") = true <;>
      simp [hd]
  · by_cases hd : truthy (env "PKSETUP_PKDEPLOY_IS_DEV") = true <;>
      simp [hd]

/-- Environment with both PyPI credentials set, for witnesses. -/
def envFull : String → Option String :=
  fun k => if k = "PKSETUP_PYPI_PASSWORD" then some "pw"
    else if k = "PKSETUP_PYPI_USER" then some "us" else none

/-- Witness for C6 with an empty sdist glob. -/
theorem c6_sdist_guard_witness :
    (pkdeploy_run false envFull []).2 =
      Except.error (pyReprStrList [] ++ ": should be exactly one sdist") ∧
    DAct.upload ∉ (pkdeploy_run false envFull []).1 ∧
    DAct.tox ∈ (pkdeploy_run false envFull []).1 :=
  c6_sdist_guard envFull [] "pw" "us" (by rfl) (by rfl) (by decide)

/-- C7: `_find_files` always returns a list sorted in ascending string
order, both when the entries come from the two `git ls-files` calls and
when they come from the directory walk. -/
theorem c7_find_files_sorted (gitExists : Bool)
    (gitOthers gitTracked walked : List String) :
    List.Sorted (· ≤ ·) (_find_files gitExists gitOthers gitTracked walked) :=
  List.sorted_insertionSort _ _

theorem str_toList_append (a b : String) :
    (a ++ b).toList = a.toList ++ b.toList := rfl

theorem infix_middle (a b c : String) :
    ∃ s t2, s ++ b.toList ++ t2 = (a ++ b ++ c).toList :=
  ⟨a.toList, c.toList, rfl⟩

theorem readme_cases {fs : Fs} {w : String} (h : _readme fs = Except.ok w) :
    w = "README.rst" ∨ w = "README.md" ∨ w = "README.txt" := by
  unfold _readme at h
  split_ifs at h <;>
    first
      | (injection h with h2; exact Or.inl h2.symm)
      | (injection h with h2; exact Or.inr (Or.inl h2.symm))
      | (injection h with h2; exact Or.inr (Or.inr h2.symm))

theorem pkgInfoFile_ne (name other : String)
    (hlen : other.length < 18) : pkgInfoFile name ≠ other := by
  intro h
  have h1 : (pkgInfoFile name).length = other.length := by rw [h]
  unfold pkgInfoFile at h1
  rw [String.length_append] at h1
  have h2 : (".egg-info/PKG-INFO" : String).length = 18 := rfl
  omega

/-- C8: whenever `_state` succeeds, the generated `MANIFEST.in` text
contains the include directive naming exactly the README file `_readme`
chose in that same invocation. -/
theorem c8_manifest_readme (fs : Fs) (gitV : Option String) (name : String)
    (extraDirs : List String) (findFiles : String → List String)
    (h : ∃ r, _state fs gitV name extraDirs findFiles = Except.ok r) :
    ∃ w, _readme fs = Except.ok w ∧
      ∃ s t2, s ++ ("include " ++ w ++ "\n").toList ++ t2 =
        (stManifest (_state fs gitV name extraDirs findFiles)).toList := by
  obtain ⟨r, hr⟩ := h
  have hr0 := hr
  unfold _state at hr0
  split at hr0
  · simp at hr0
  · rename_i version hv
    split at hr0
    · simp at hr0
    · rename_i readme hw
      split at hr0
      · simp at hr0
      · rename_i ld hl
        injection hr0 with hr2
        subst hr2
        refine ⟨readme, hw, ?_⟩
        rw [hr]
        exact infix_middle _ _ _

/-- Witness for C8 at a concrete filesystem with only `README.md`. -/
theorem c8_manifest_readme_witness :
    ∃ w, _readme fsMd = Except.ok w ∧
      ∃ s t2, s ++ ("include " ++ w ++ "\n").toList ++ t2 =
        (stManifest (_state fsMd (some "20150101.0") "pkg" []
          (fun _ => []))).toList :=
  c8_manifest_readme fsMd (some "20150101.0") "pkg" [] (fun _ => [])
    ⟨_, by rfl⟩

/-- C4 counterexample: a concrete successful `_state` run writes
`MANIFEST.in`, and no flow best-effort-removes it afterward: neither its
own trace nor the `run_tests` or `tox_run` traces — with the invoked tool
failing or succeeding — contain a `MANIFEST.in` removal, so "each is
best-effort removed afterward" fails for the manifest include-list. -/
theorem c4_manifest_not_removed_counterexample :
    FsOp.write "MANIFEST.in" ∈
        stTrace (_state fsMd (some "20150101.0") "pkg" [] (fun _ => [])) ∧
    FsOp.removeAnyway "MANIFEST.in" ∉
        stTrace (_state fsMd (some "20150101.0") "pkg" [] (fun _ => [])) ∧
    FsOp.removeAnyway "MANIFEST.in" ∉ (run_tests false true).1 ∧
    FsOp.removeAnyway "MANIFEST.in" ∉ (run_tests false false).1 ∧
    FsOp.removeAnyway "MANIFEST.in" ∉ (tox_run false true).1 ∧
    FsOp.removeAnyway "MANIFEST.in" ∉ (tox_run false false).1 ∧
    FsOp.removeAnyway "MANIFEST.in" ∉ (tox_run true false).1 := by
  decide

/-- C4 (amended): the test-runner config and the environment-matrix
config are fully overwritten (mode-w write, result independent of prior
contents, never read back) and best-effort removed afterward even when
the invoked tool fails; the manifest include-list is fully overwritten on
every `_state` invocation but never removed; and the exception-suppressing
removal is total — removing a missing file is a no-op. -/
theorem c4_overwrite_cleanup :
    (∀ raises : Bool,
      (run_tests false raises).1.getLast? =
          some (FsOp.removeAnyway PYTEST_INI_FILE) ∧
        FsOp.write PYTEST_INI_FILE ∈ (run_tests false raises).1 ∧
        FsOp.read PYTEST_INI_FILE ∉ (run_tests false raises).1) ∧
    (∀ raises : Bool,
      (tox_run false raises).1.getLast? =
          some (FsOp.removeAnyway TOX_INI_FILE) ∧
        FsOp.write TOX_INI_FILE ∈ (tox_run false raises).1 ∧
        FsOp.read TOX_INI_FILE ∉ (tox_run false raises).1) ∧
    (∀ (fs fs2 : Fs) (n c : String),
      fsWrite fs n c n = some c ∧ fsWrite fs n c n = fsWrite fs2 n c n) ∧
    (∀ (fs : Fs) (n : String), fs n = none → fsRemove fs n = fs) ∧
    (∀ fs gitV name extraDirs findFiles,
      (∃ r, _state fs gitV name extraDirs findFiles = Except.ok r) →
        FsOp.write "MANIFEST.in" ∈
            stTrace (_state fs gitV name extraDirs findFiles) ∧
          FsOp.read "MANIFEST.in" ∉
            stTrace (_state fs gitV name extraDirs findFiles) ∧
          FsOp.removeAnyway "MANIFEST.in" ∉
            stTrace (_state fs gitV name extraDirs findFiles)) := by
  refine ⟨?_, ?_, ?_, ?_, ?_⟩
  · intro raises
    refine ⟨?_, ?_, ?_⟩ <;> cases raises <;> decide
  · intro raises
    refine ⟨?_, ?_, ?_⟩ <;> cases raises <;> decide
  · intro fs fs2 n c
    constructor
    · simp [fsWrite]
    · simp [fsWrite]
  · intro fs n h
    funext m
    unfold fsRemove
    by_cases hm : m = n
    · subst hm; rw [if_pos rfl, h]
    · rw [if_neg hm]
  · intro fs gitV name extraDirs findFiles h
    obtain ⟨r, hr⟩ := h
    have hr0 := hr
    unfold _state at hr0
    split at hr0
    · simp at hr0
    · rename_i version hv
      split at hr0
      · simp at hr0
      · rename_i readme hw
        split at hr0
        · simp at hr0
        · rename_i ld hl
          injection hr0 with hr2
          subst hr2
          rw [hr]
          have hpkg : FsOp.read "MANIFEST.in" ≠ FsOp.read (pkgInfoFile name) := by
            intro hc
            injection hc with hc2
            exact pkgInfoFile_ne name "MANIFEST.in" (by decide) hc2.symm
          have hrd : FsOp.read "MANIFEST.in" ≠ FsOp.read readme := by
            intro hc
            injection hc with hc2
            rcases readme_cases hw with h1 | h1 | h1 <;> rw [h1] at hc2 <;>
              simp at hc2
          refine ⟨?_, ?_, ?_⟩
          · simp [stTrace]
          · simp only [stTrace, List.mem_cons, List.mem_singleton]
            rintro (hc | hc | hc | hc)
            · exact hpkg hc
            · exact hrd hc
            · simp at hc
            · simp at hc
          · simp only [stTrace, List.mem_cons, List.mem_singleton]
            rintro (hc | hc | hc | hc) <;> simp at hc

/-- Witness for the amended C4: the removal no-op and the manifest write
at concrete inputs. -/
theorem c4_overwrite_cleanup_witness :
    fsRemove fsNone "pytest.ini" = fsNone ∧
    FsOp.write "MANIFEST.in" ∈
      stTrace (_state fsMd (some "20150101.0") "pkg2" [] (fun _ => [])) :=
  ⟨c4_overwrite_cleanup.2.2.2.1 fsNone "pytest.ini" rfl,
   (c4_overwrite_cleanup.2.2.2.2 fsMd (some "20150101.0") "pkg2" []
     (fun _ => []) ⟨_, by rfl⟩).1⟩

theorem pyenv_foldl (classifiers : List String) (acc : List String) :
    classifiers.foldl
      (fun acc c =>
        match searchPy c with
        | some g => acc ++ [fmtPy g]
        | none => acc)
      acc =
    acc ++ classifiers.filterMap (fun c => (searchPy c).map fmtPy) := by
  induction classifiers generalizing acc with
  | nil => simp
  | cons c cs ih =>
    simp only [List.foldl_cons, List.filterMap_cons]
    cases hc : searchPy c with
    | none => simp only [hc, Option.map_none']; rw [ih]
    | some g =>
      simp only [hc, Option.map_some']
      rw [ih]
      simp [List.append_assoc]

/-- C9 (amended): the tox environment list is never empty; when no
classifier matches the code's pattern it is exactly `["py27"]`; otherwise
it lists, in classifier order, one `pyXY` entry per matching classifier.
The code's pattern separates the two digit groups by an unescaped dot —
any single non-newline character — not only by a literal dot. -/
theorem c9_pyenv (classifiers : List String) :
    pyenvList classifiers ≠ [] ∧
    ((∀ c ∈ classifiers, searchPy c = none) →
      pyenvList classifiers = ["py27"]) ∧
    ((∃ c ∈ classifiers, (searchPy c).isSome = true) →
      pyenvList classifiers =
        classifiers.filterMap (fun c => (searchPy c).map fmtPy)) := by
  unfold pyenvList
  rw [pyenv_foldl classifiers [], List.nil_append]
  refine ⟨?_, ?_, ?_⟩
  · by_cases he :
        (classifiers.filterMap (fun c => (searchPy c).map fmtPy)).isEmpty = true
    · rw [if_pos he]; simp
    · rw [if_neg he]
      simpa [List.isEmpty_iff] using he
  · intro h
    have he : classifiers.filterMap (fun c => (searchPy c).map fmtPy) = [] := by
      rw [List.filterMap_eq_nil_iff]
      intro c hc
      rw [h c hc]
      rfl
    rw [he]
    rfl
  · rintro ⟨c, hc, hsome⟩
    obtain ⟨g, hg⟩ := Option.isSome_iff_exists.mp hsome
    have hmem : fmtPy g ∈
        classifiers.filterMap (fun c => (searchPy c).map fmtPy) :=
      List.mem_filterMap.mpr ⟨c, hc, by rw [hg]; rfl⟩
    have hne : (classifiers.filterMap
        (fun c => (searchPy c).map fmtPy)).isEmpty ≠ true := by
      intro hemp
      rw [List.isEmpty_iff] at hemp
      rw [hemp] at hmem
      simp at hmem
    rw [if_neg hne]

/-- Witness for the amended C9: no match yields `py27`; matches are
listed in order. -/
theorem c9_pyenv_witness :
    pyenvList ["Development Status :: 4 - Beta"] = ["py27"] ∧
    pyenvList ["Programming Language :: Python :: 2.7",
        "Programming Language :: Python :: 3.4"] =
      (["Programming Language :: Python :: 2.7",
        "Programming Language :: Python :: 3.4"] : List String).filterMap
          (fun c => (searchPy c).map fmtPy) :=
  ⟨(c9_pyenv _).2.1 (by decide), (c9_pyenv _).2.2 (by decide)⟩

/-- C9 counterexample: `Programming Language :: Python :: 3!4` does not
match the literal `X.Y` pattern of the claim (the separator is `!`), so
the claim predicts `["py27"]`; the code produces `["py34"]` because its
unescaped dot matches any character. -/
theorem c9_pyenv_counterexample :
    strictSearchPy "Programming Language :: Python :: 3!4" = none ∧
    pyenvList ["Programming Language :: Python :: 3!4"] = ["py34"] ∧
    (["py34"] : List String) ≠ ["py27"] := by
  refine ⟨by decide, by decide, by decide⟩

end Pksetup
